import Mathlib

/-!
Shallow embedding of the Snake reinforcement-learning program
(`snake_rl.py`): the grid environment (`SnakeGameEnv`), the replay
buffer, the Double-DQN target computation, the Polyak soft update and
the exploration-rate decay, together with theorems settling the frozen
claims about the program.  Rendering, pygame event handling and
plotting are presentation concerns and are not modelled; the pause flag
is kept because `step` consults it.  Randomness (`random.randint`,
`random.choice`) is modelled by explicit oracles: a draw function
`ℕ → Pos` for food placement, and explicit start/direction arguments
for `reset`.  Python ints are embedded as `ℤ`/`ℕ`; float rewards as
`ℝ` (the only irrational operation is the growth bonus `len ** 1.5`);
the epsilon schedule and network values, whose claims are exact
arithmetic identities, as `ℚ`.
-/

namespace SnakeRL

/-- A grid cell, a Python `(x, y)` int pair. -/
abbrev Pos := ℤ × ℤ

/-- The mutable state of `SnakeGameEnv` that the game logic touches:
grid size, snake body (head first), current direction, food cell,
score, game-over flag, the two step counters, and the pause flag. -/
structure EnvState where
  width : ℕ
  height : ℕ
  snake_pos : List Pos
  snake_dir : Pos
  food_pos : Pos
  score : ℕ
  game_over : Bool
  steps_without_food : ℕ
  total_steps : ℕ
  paused : Bool
deriving DecidableEq, Repr

/-- `self.max_steps_without_food = width * height * 2` from `__init__`. -/
def max_steps_without_food (s : EnvState) : ℕ := s.width * s.height * 2

/-- `_update_direction`: action 0 keeps the direction, action 1 turns
right and action 2 turns left via the fixed dictionaries; a direction
outside the four unit vectors is returned unchanged (in Python the
dictionary lookup would fail, but such a direction never occurs). -/
def update_direction (action : ℕ) (d : Pos) : Pos :=
  if action = 1 then
    if d = ((0, -1) : Pos) then (1, 0)
    else if d = ((1, 0) : Pos) then (0, 1)
    else if d = ((0, 1) : Pos) then (-1, 0)
    else if d = ((-1, 0) : Pos) then (0, -1)
    else d
  else if action = 2 then
    if d = ((0, -1) : Pos) then (-1, 0)
    else if d = ((1, 0) : Pos) then (0, -1)
    else if d = ((0, 1) : Pos) then (1, 0)
    else if d = ((-1, 0) : Pos) then (0, 1)
    else d
  else d

/-- The `while attempts < 100` loop of `place_food`: scan the random
draws starting at index `i` with `fuel` attempts left; return the
first draw not occupied by the snake, or `none` when the attempts are
exhausted. -/
def findFreeAux (snake : List Pos) (draws : ℕ → Pos) : ℕ → ℕ → Option Pos
  | 0, _ => none
  | fuel + 1, i =>
      if draws i ∈ snake then findFreeAux snake draws fuel (i + 1) else some (draws i)

/-- `place_food`: try up to 100 random cells; on the first free one set
`food_pos` and stop; if all 100 attempts hit the snake, set
`game_over := True` and leave `food_pos` unchanged. -/
def place_food (draws : ℕ → Pos) (s : EnvState) : EnvState :=
  match findFreeAux s.snake_pos draws 100 0 with
  | some p => { s with food_pos := p }
  | none => { s with game_over := true }

/-- `reset`: put a length-1 snake at the drawn start cell with the
drawn direction, run `place_food`, then clear score, game-over flag
and the counters — in this order, so a `game_over` set by an exhausted
`place_food` is overwritten with `False`. -/
def reset (start : Pos) (dir : Pos) (draws : ℕ → Pos) (s : EnvState) : EnvState :=
  let s1 := { s with snake_pos := [start], snake_dir := dir }
  let s2 := place_food draws s1
  { s2 with score := 0, game_over := false, steps_without_food := 0, total_steps := 0 }

/-- Manhattan distance, as computed in `step` and `_calculate_reward`. -/
def manhattan (p q : Pos) : ℤ := |p.1 - q.1| + |p.2 - q.2|

/-- The candidate new head of `step`: the current head plus the
direction already updated for the action. -/
def newHead (s : EnvState) (a : ℕ) : Pos :=
  (s.snake_pos.headI.1 + (update_direction a s.snake_dir).1,
   s.snake_pos.headI.2 + (update_direction a s.snake_dir).2)

/-- The collision test of `step`: candidate head out of bounds or in
the (entire, pre-move) snake body. -/
def collides (s : EnvState) (a : ℕ) : Prop :=
  (newHead s a).1 < 0 ∨ (newHead s a).1 ≥ (s.width : ℤ) ∨
  (newHead s a).2 < 0 ∨ (newHead s a).2 ≥ (s.height : ℤ) ∨
  newHead s a ∈ s.snake_pos

instance (s : EnvState) (a : ℕ) : Decidable (collides s a) := by
  unfold collides; infer_instance

/-- The timeout test of `step`: the steps-without-food counter,
already incremented for this step, has reached
`max_steps_without_food`. -/
def timedOut (s : EnvState) : Prop :=
  s.steps_without_food + 1 ≥ max_steps_without_food s

instance (s : EnvState) : Decidable (timedOut s) := by
  unfold timedOut; infer_instance

/-- The hunger test of `_calculate_reward`, on the state it is called
with: `steps_without_food > max_steps_without_food * 0.7`. -/
def hungry (s : EnvState) : Prop :=
  (s.steps_without_food : ℚ) > (max_steps_without_food s : ℚ) * (7 / 10)

instance (s : EnvState) : Decidable (hungry s) := by
  unfold hungry; infer_instance

/-- The boundary test of `_calculate_reward`: the head sits on an edge
column or row. -/
def onBoundary (s : EnvState) (p : Pos) : Prop :=
  p.1 = 0 ∨ p.1 = (s.width : ℤ) - 1 ∨ p.2 = 0 ∨ p.2 = (s.height : ℤ) - 1

instance (s : EnvState) (p : Pos) : Decidable (onBoundary s p) := by
  unfold onBoundary; infer_instance

/-- `_calculate_reward(prev_food_dist)`: start from the survival
reward 1, add 5 or subtract 3 for moving toward / away from the food,
subtract 2 on a boundary cell, subtract 5 when hungry.  It is called
after the new head has been prepended, so `snake_pos.headI` is the new
head and `steps_without_food` is the incremented counter. -/
noncomputable def calculate_reward (prev_food_dist : ℤ) (s : EnvState) : ℝ :=
  let current_food_dist := manhattan s.snake_pos.headI s.food_pos
  let r1 : ℝ := 1
  let r2 := if current_food_dist < prev_food_dist then r1 + 5
            else if current_food_dist > prev_food_dist then r1 - 3 else r1
  let r3 := if onBoundary s s.snake_pos.headI then r2 - 2 else r2
  if hungry s then r3 - 5 else r3

/-- The state produced by a terminal `step` (collision or timeout):
direction updated, counters incremented, `game_over` set, body and
food untouched. -/
def stepTermState (s : EnvState) (a : ℕ) : EnvState :=
  { s with snake_dir := update_direction a s.snake_dir,
           steps_without_food := s.steps_without_food + 1,
           total_steps := s.total_steps + 1,
           game_over := true }

/-- The body after `snake_pos.insert(0, new_head)`. -/
def stepBody (s : EnvState) (a : ℕ) : List Pos := newHead s a :: s.snake_pos

/-- The state on which `_calculate_reward` is invoked: head prepended,
direction updated, counters incremented. -/
def stepGrownState (s : EnvState) (a : ℕ) : EnvState :=
  { s with snake_dir := update_direction a s.snake_dir,
           steps_without_food := s.steps_without_food + 1,
           total_steps := s.total_steps + 1,
           snake_pos := stepBody s a }

/-- The reward of an accepted move before any growth bonus:
`_calculate_reward` of the grown state, with `prev_food_dist` taken
from the pre-move head. -/
noncomputable def stepReward (s : EnvState) (a : ℕ) : ℝ :=
  calculate_reward (manhattan s.snake_pos.headI s.food_pos) (stepGrownState s a)

/-- The state after the food-eaten bookkeeping (`score += 1`,
`steps_without_food = 0`), before `place_food`. -/
def stepEatState (s : EnvState) (a : ℕ) : EnvState :=
  { stepGrownState s a with score := s.score + 1, steps_without_food := 0 }

/-- The state of an accepted non-eating move: tail popped. -/
def stepMoveState (s : EnvState) (a : ℕ) : EnvState :=
  { stepGrownState s a with snake_pos := (stepBody s a).dropLast }

/-- `step(action)`: no-op while paused; otherwise update the direction,
compute the candidate head and the incremented counter, and in order:
collision gives `(-100, True)`, timeout gives `(-50, True)`, both with
the body untouched; otherwise prepend the head, compute the shaped
reward, and either (head on food) bump the score, reset the hunger
counter, add the growth bonus `100 + len ** 1.5` for the grown length
and relocate the food, or (otherwise) pop the tail.  The returned flag
is the resulting `game_over`. -/
noncomputable def step (a : ℕ) (draws : ℕ → Pos) (s : EnvState) : EnvState × ℝ × Bool :=
  if s.paused = true then (s, 0, false)
  else if collides s a then (stepTermState s a, -100, true)
  else if timedOut s then (stepTermState s a, -50, true)
  else if newHead s a = s.food_pos then
    (place_food draws (stepEatState s a),
     stepReward s a + (100 + ((stepBody s a).length : ℝ) ^ (1.5 : ℝ)),
     (place_food draws (stepEatState s a)).game_over)
  else (stepMoveState s a, stepReward s a, s.game_over)

/-- A stored experience `(state, action, reward, next_state, done)` as
pushed by `remember`; observations are abstract (`σ`), rewards exact
rationals. -/
structure Transition (σ : Type) where
  obs : σ
  action : Fin 3
  reward : ℚ
  next_obs : σ
  done : Bool
deriving DecidableEq

/-- `argmax` over the three action values with ties broken by the
first-occurring index, as `torch.argmax` does on the Q output row. -/
def argmax3 (f : Fin 3 → ℚ) : Fin 3 :=
  if f 0 < f 1 then (if f 1 < f 2 then 2 else 1)
  else (if f 0 < f 2 then 2 else 0)

/-- One Double-DQN target of `replay`: the next action is the online
network's argmax at the next observation, its value is read from the
target network, and the bootstrapped term is masked by `~dones`:
`rewards + gamma * next_q_values * ~dones`. -/
def ddqnTarget {σ : Type} (gamma : ℚ) (qOnline qTarget : σ → Fin 3 → ℚ)
    (t : Transition σ) : ℚ :=
  t.reward + gamma * qTarget t.next_obs (argmax3 (qOnline t.next_obs)) *
    (if t.done then 0 else 1)

/-- The batch of targets computed in one `replay` call, with
`gamma = 0.99`. -/
def replayTargets {σ : Type} (qOnline qTarget : σ → Fin 3 → ℚ)
    (batch : List (Transition σ)) : List ℚ :=
  batch.map (ddqnTarget (99 / 100) qOnline qTarget)

/-- `deque(maxlen=cap).append`: when the buffer is below capacity the
new element goes to the right; at capacity the oldest (leftmost)
element is evicted first.  The list is ordered oldest first. -/
def bufPush {α : Type} (cap : ℕ) (buf : List α) (x : α) : List α :=
  if buf.length < cap then buf ++ [x] else buf.tail ++ [x]

/-- Pushing a sequence of transitions in order (`remember` calls). -/
def bufPushAll {α : Type} (cap : ℕ) (buf : List α) (ts : List α) : List α :=
  ts.foldl (bufPush cap) buf

/-- The replay memory capacity, `deque(maxlen=50000)`. -/
def replayCapacity : ℕ := 50000

/-- `soft_update`: each target parameter becomes
`tau * local + (1 - tau) * target`, elementwise over the zipped
parameter sequences (target first, matching the `zip` in the source). -/
def soft_update (tau : ℚ) (target online : List ℚ) : List ℚ :=
  List.zipWith (fun t l => tau * l + (1 - tau) * t) target online

/-- The `tau` of `DQNAgent.__init__`, `0.005`. -/
def agentTau : ℚ := 5 / 1000

/-- The epsilon decay at the end of `replay`: multiply by
`epsilon_decay = 0.995` only when `epsilon > epsilon_min = 0.01`. -/
def decayEpsilon (e : ℚ) : ℚ := if e > 1 / 100 then e * (199 / 200) else e

/-- Epsilon after `n` learning steps, starting from the initial
`epsilon = 1.0`. -/
def epsAfter : ℕ → ℚ
  | 0 => 1
  | n + 1 => decayEpsilon (epsAfter n)

/-! ## Theorems -/

/-- The four unit-vector directions, as listed in `reset`. -/
def directions : List Pos := [(0, -1), (1, 0), (0, 1), (-1, 0)]

/-- C7: four consecutive TurnRight (action 1) applications return any
of the four directions to itself, and no single action (0, 1 or 2)
maps a direction to its exact reversal. -/
theorem c7_direction_rotation (d : Pos) (hd : d ∈ directions) :
    update_direction 1 (update_direction 1 (update_direction 1 (update_direction 1 d))) = d ∧
    ∀ a : ℕ, a < 3 → update_direction a d ≠ (-d.1, -d.2) := by
  constructor
  · fin_cases hd <;> rfl
  · intro a ha
    interval_cases a <;> fin_cases hd <;> decide

/-- C7 witness: the Up direction, under the theorem. -/
theorem c7_witness :
    update_direction 1 (update_direction 1 (update_direction 1
      (update_direction 1 ((0, -1) : Pos)))) = ((0, -1) : Pos) ∧
    ∀ a : ℕ, a < 3 → update_direction a ((0, -1) : Pos) ≠ (0, 1) := by
  have h := c7_direction_rotation ((0, -1) : Pos) (by decide)
  exact ⟨h.1, fun a ha => h.2 a ha⟩

/-- C2: every Double-DQN target in a batch is
`reward + 0.99 * Q_target(next, argmax Q_online(next)) * (0 if done else 1)`
(next action chosen by the online network, evaluated by the target
network), and for a batch of terminal transitions every target equals
the transition's reward with no bootstrapped term. -/
theorem c2_double_dqn_target {σ : Type} (qOnline qTarget : σ → Fin 3 → ℚ)
    (batch : List (Transition σ)) :
    (∀ t ∈ batch, ddqnTarget (99 / 100) qOnline qTarget t =
        t.reward + (99 / 100) * qTarget t.next_obs (argmax3 (qOnline t.next_obs)) *
          (if t.done then 0 else 1)) ∧
    ((∀ t ∈ batch, t.done = true) →
      replayTargets qOnline qTarget batch = batch.map (fun t => t.reward)) := by
  refine ⟨fun t _ => rfl, fun hall => ?_⟩
  induction batch with
  | nil => rfl
  | cons t ts ih =>
      have ht : t.done = true := hall t (List.mem_cons_self t ts)
      have hts : ∀ u ∈ ts, u.done = true := fun u hu => hall u (List.mem_cons_of_mem t hu)
      simp only [replayTargets, List.map_cons] at ih ⊢
      rw [ih hts]
      congr 1
      simp [ddqnTarget, ht]

/-- C2 witness: a two-element all-terminal batch over `σ = ℕ`. -/
theorem c2_witness :
    replayTargets (fun _ _ => 0) (fun _ _ => 7)
      [(⟨0, 0, 5, 0, true⟩ : Transition ℕ), ⟨0, 1, -3, 1, true⟩] = [5, -3] := by
  have h := (c2_double_dqn_target (fun _ _ => (0 : ℚ)) (fun _ _ => (7 : ℚ))
    [(⟨0, 0, 5, 0, true⟩ : Transition ℕ), ⟨0, 1, -3, 1, true⟩]).2 (by decide)
  simpa using h

lemma soft_update_getD (tau : ℚ) :
    ∀ (target online : List ℚ) (i : ℕ), i < target.length → i < online.length →
      (soft_update tau target online).getD i 0 =
        tau * online.getD i 0 + (1 - tau) * target.getD i 0 := by
  intro target
  induction target with
  | nil => intro online i h1 _; simp at h1
  | cons t ts ih =>
      intro online i h1 h2
      cases online with
      | nil => simp at h2
      | cons o os =>
          cases i with
          | zero => simp [soft_update]
          | succ n =>
              simp only [soft_update, List.zipWith_cons_cons, List.getD_cons_succ]
              exact ih os n (by simpa using h1) (by simpa using h2)

lemma soft_update_one : ∀ (target online : List ℚ), target.length = online.length →
    soft_update 1 target online = online := by
  intro target
  induction target with
  | nil => intro online h; cases online with
      | nil => rfl
      | cons o os => simp at h
  | cons t ts ih =>
      intro online h
      cases online with
      | nil => simp at h
      | cons o os =>
          simp only [soft_update, List.zipWith_cons_cons] at ih ⊢
          rw [ih os (by simpa using h)]
          norm_num

lemma soft_update_zero : ∀ (target online : List ℚ), target.length = online.length →
    soft_update 0 target online = target := by
  intro target
  induction target with
  | nil => intro online _; rfl
  | cons t ts ih =>
      intro online h
      cases online with
      | nil => simp at h
      | cons o os =>
          simp only [soft_update, List.zipWith_cons_cons] at ih ⊢
          rw [ih os (by simpa using h)]
          norm_num

/-- C8: target-network synchronization sets each target parameter
elementwise to `tau * online + (1 - tau) * target`; with `tau = 1` one
call makes the target parameters exactly the online ones, and with
`tau = 0` they are unchanged. -/
theorem c8_soft_update (tau : ℚ) (target online : List ℚ)
    (h : target.length = online.length) :
    (∀ i : ℕ, i < target.length →
      (soft_update tau target online).getD i 0 =
        tau * online.getD i 0 + (1 - tau) * target.getD i 0) ∧
    soft_update 1 target online = online ∧
    soft_update 0 target online = target := by
  exact ⟨fun i hi => soft_update_getD tau target online i hi (h ▸ hi),
    soft_update_one target online h, soft_update_zero target online h⟩

/-- C8 witness: two-parameter vectors under the theorem, with the
elementwise blend checked at index 0 for `tau = 0.005`. -/
theorem c8_witness :
    (soft_update agentTau [2, 4] [6, 8]).getD 0 0 =
      agentTau * 6 + (1 - agentTau) * 2 ∧
    soft_update 1 [2, 4] [6, 8] = [6, 8] ∧
    soft_update 0 [2, 4] [6, 8] = [2, 4] := by
  refine ⟨?_, (c8_soft_update 1 [2, 4] [6, 8] (by decide)).2.1,
    (c8_soft_update 0 [2, 4] [6, 8] (by decide)).2.2⟩
  exact (c8_soft_update agentTau [2, 4] [6, 8] (by decide)).1 0 (by decide)

lemma decayEpsilon_le (e : ℚ) (_he : 0 ≤ e) : decayEpsilon e ≤ e := by
  unfold decayEpsilon
  split
  · nlinarith
  · exact le_refl e

lemma decayEpsilon_lower (e : ℚ) (he : 199 / 20000 ≤ e) :
    199 / 20000 ≤ decayEpsilon e := by
  unfold decayEpsilon
  split
  · next h => nlinarith
  · exact he

/-- C4 (amended): epsilon is monotonically non-increasing and stays in
`[0.995 * 0.01, 1.0]`: the decay fires only while `epsilon > 0.01`, so
a single multiplication can land below the `0.01` floor, but never
below `0.995 * 0.01 = 0.00995`. -/
theorem c4_epsilon_amended (n : ℕ) :
    epsAfter (n + 1) ≤ epsAfter n ∧
    199 / 20000 ≤ epsAfter n ∧ epsAfter n ≤ 1 := by
  have key : ∀ m : ℕ, 199 / 20000 ≤ epsAfter m ∧ epsAfter m ≤ 1 := by
    intro m
    induction m with
    | zero => norm_num [epsAfter]
    | succ k ih =>
        refine ⟨decayEpsilon_lower _ ih.1, ?_⟩
        calc epsAfter (k + 1) = decayEpsilon (epsAfter k) := rfl
          _ ≤ epsAfter k := decayEpsilon_le _ (le_trans (by norm_num) ih.1)
          _ ≤ 1 := ih.2
  exact ⟨decayEpsilon_le _ (le_trans (by norm_num) (key n).1), (key n).1, (key n).2⟩

lemma epsAfter_eq_pow : ∀ n : ℕ, 1 / 100 < ((199 : ℚ) / 200) ^ n →
    epsAfter n = ((199 : ℚ) / 200) ^ n := by
  intro n
  induction n with
  | zero => intro _; simp [epsAfter]
  | succ m ih =>
      intro h
      have hr : ((199 : ℚ) / 200) ^ (m + 1) < ((199 : ℚ) / 200) ^ m := by
        rw [pow_succ]
        nlinarith [pow_pos (show (0:ℚ) < 199/200 by norm_num) m]
      have hm : 1 / 100 < ((199 : ℚ) / 200) ^ m := lt_trans h hr
      rw [epsAfter, ih hm, decayEpsilon, if_pos hm, pow_succ]

/-- C4 counterexample: starting from the initial `epsilon = 1.0`, the
919th learning-step decay drives epsilon strictly below
`epsilon_min = 0.01` (the 918th value `0.995 ^ 918` is still above the
threshold, so the decay fires and lands at `0.995 ^ 919 < 0.01`): the
claimed floor is not enforced by the code. -/
theorem c4_epsilon_counterexample : epsAfter 919 < 1 / 100 := by
  have h918 : (1 : ℚ) / 100 < ((199 : ℚ) / 200) ^ 918 := by norm_num
  have e919 : epsAfter 919 = ((199 : ℚ) / 200) ^ 919 := by
    rw [epsAfter, epsAfter_eq_pow 918 h918, decayEpsilon, if_pos h918]; ring
  rw [e919]
  norm_num

lemma bufPush_length_le {α : Type} (cap : ℕ) (hc : 0 < cap) (buf : List α) (x : α)
    (hb : buf.length ≤ cap) : (bufPush cap buf x).length ≤ cap := by
  unfold bufPush
  split
  · next h => simpa using h
  · next h =>
      have hne : buf ≠ [] := by
        intro hnil; rw [hnil] at h; simp at h; omega
      simp [List.length_tail]
      omega

lemma bufPushAll_eq {α : Type} (cap : ℕ) (hc : 0 < cap) :
    ∀ (ts buf : List α), buf.length ≤ cap →
      bufPushAll cap buf ts = (buf ++ ts).drop (buf.length + ts.length - cap) := by
  intro ts
  induction ts with
  | nil =>
      intro buf hb
      simp only [bufPushAll, List.foldl_nil, List.append_nil, List.length_nil, Nat.add_zero]
      rw [Nat.sub_eq_zero_of_le hb, List.drop_zero]
  | cons t ts ih =>
      intro buf hb
      have step1 : bufPushAll cap buf (t :: ts) = bufPushAll cap (bufPush cap buf t) ts := rfl
      rw [step1, ih (bufPush cap buf t) (bufPush_length_le cap hc buf t hb)]
      unfold bufPush
      split
      · next h =>
          have hlen : (buf ++ [t]).length = buf.length + 1 := by simp
          rw [hlen]
          have harr : (buf ++ [t]) ++ ts = buf ++ t :: ts := by simp
          rw [harr]
          congr 1
          simp
          omega
      · next h =>
          have heq : buf.length = cap := by omega
          obtain ⟨b, bs, rfl⟩ : ∃ b bs, buf = b :: bs := by
            cases buf with
            | nil => simp at heq; omega
            | cons b bs => exact ⟨b, bs, rfl⟩
          have hlen : ((b :: bs).tail ++ [t]).length = cap := by
            simp at heq ⊢; omega
          rw [hlen]
          have harr : ((b :: bs).tail ++ [t]) ++ ts = bs ++ t :: ts := by simp
          rw [harr]
          have hidx : (b :: bs).length + (t :: ts).length - cap = (bs ++ t :: ts).length - cap + 1 := by
            simp at heq ⊢; omega
          rw [hidx]
          have : (b :: (bs ++ t :: ts)).drop ((bs ++ t :: ts).length - cap + 1) =
              (bs ++ t :: ts).drop ((bs ++ t :: ts).length - cap) := by
            simp [List.drop_succ_cons]
          rw [show b :: bs ++ t :: ts = b :: (bs ++ t :: ts) from rfl, this]
          congr 1
          simp at heq ⊢
          omega

/-- C6: the replay buffer never exceeds its capacity 50000, and
pushing 50001 pairwise-distinct transitions evicts oldest-first: the
whole buffer is the input minus its first element, so the
first-pushed transition is absent and the most recently pushed one is
present. -/
theorem c6_replay_buffer (ts : List ℕ) (x y : ℕ) (hnd : ts.Nodup)
    (hlen : ts.length = replayCapacity + 1)
    (hx : ts.head? = some x) (hy : ts.getLast? = some y) :
    (∀ us : List ℕ, (bufPushAll replayCapacity [] us).length ≤ replayCapacity) ∧
    bufPushAll replayCapacity [] ts = ts.tail ∧
    x ∉ bufPushAll replayCapacity [] ts ∧
    y ∈ bufPushAll replayCapacity [] ts := by
  have hcap : 0 < replayCapacity := by norm_num [replayCapacity]
  have hall : ∀ us : List ℕ, bufPushAll replayCapacity [] us =
      us.drop (us.length - replayCapacity) := by
    intro us
    rw [bufPushAll_eq replayCapacity hcap us [] (by simp)]
    simp
  have hbound : ∀ us : List ℕ,
      (bufPushAll replayCapacity [] us).length ≤ replayCapacity := by
    intro us
    rw [hall us, List.length_drop]
    omega
  have htail : bufPushAll replayCapacity [] ts = ts.tail := by
    rw [hall ts, hlen]
    simp [List.drop_one]
  obtain ⟨rest, rfl⟩ : ∃ rest, ts = x :: rest := by
    cases ts with
    | nil => simp at hx
    | cons a rest => simp at hx; exact ⟨rest, by rw [hx]⟩
  have hxmem : x ∉ rest := by
    simp [List.nodup_cons] at hnd
    exact hnd.1
  have hymem : y ∈ rest := by
    obtain ⟨r, rest', rfl⟩ : ∃ r rest', rest = r :: rest' := by
      cases rest with
      | nil => simp [replayCapacity] at hlen
      | cons r rest' => exact ⟨r, rest', rfl⟩
    rw [List.getLast?_cons_cons] at hy
    exact List.mem_of_getLast?_eq_some hy
  exact ⟨hbound, htail, by rw [htail]; exact hxmem, by rw [htail]; exact hymem⟩

/-- C6 witness: pushing the 50001 distinct transitions
`0, 1, ..., 50000` into the empty buffer leaves `1, ..., 50000`:
the first-pushed `0` is gone and the newest `50000` is present. -/
theorem c6_witness :
    bufPushAll replayCapacity [] (List.range (replayCapacity + 1)) =
      (List.range (replayCapacity + 1)).tail ∧
    0 ∉ bufPushAll replayCapacity [] (List.range (replayCapacity + 1)) ∧
    replayCapacity ∈ bufPushAll replayCapacity [] (List.range (replayCapacity + 1)) := by
  have hx : (List.range (replayCapacity + 1)).head? = some 0 := by
    rw [List.range_succ_eq_map]
    rfl
  have hy : (List.range (replayCapacity + 1)).getLast? = some replayCapacity := by
    rw [List.range_succ]
    exact List.getLast?_concat _
  have h := c6_replay_buffer (List.range (replayCapacity + 1)) 0 replayCapacity
    (List.nodup_range _) (List.length_range _) hx hy
  exact ⟨h.2.1, h.2.2.1, h.2.2.2⟩

lemma findFreeAux_none (snake : List Pos) (draws : ℕ → Pos) :
    ∀ (fuel i : ℕ), (∀ j, i ≤ j → j < i + fuel → draws j ∈ snake) →
      findFreeAux snake draws fuel i = none := by
  intro fuel
  induction fuel with
  | zero => intro i _; rfl
  | succ f ih =>
      intro i h
      unfold findFreeAux
      rw [if_pos (h i (le_refl i) (by omega))]
      exact ih (i + 1) (fun j h1 h2 => h j (by omega) (by omega))

lemma findFreeAux_first (snake : List Pos) (draws : ℕ → Pos) :
    ∀ (fuel i k : ℕ), i ≤ k → k < i + fuel →
      (∀ j, i ≤ j → j < k → draws j ∈ snake) → draws k ∉ snake →
      findFreeAux snake draws fuel i = some (draws k) := by
  intro fuel
  induction fuel with
  | zero => intro i k h1 h2 _ _; omega
  | succ f ih =>
      intro i k h1 h2 hocc hfree
      by_cases hi : draws i ∈ snake
      · have hik : i < k := by
          rcases Nat.lt_or_ge i k with h | h
          · exact h
          · have : i = k := by omega
            rw [this] at hi; exact absurd hi hfree
        unfold findFreeAux
        rw [if_pos hi]
        exact ih (i + 1) k (by omega) (by omega)
          (fun j hj1 hj2 => hocc j (by omega) hj2) hfree
      · have hik : i = k := by
          rcases Nat.lt_or_ge i k with h | h
          · exact absurd (hocc i (le_refl i) h) hi
          · omega
        unfold findFreeAux
        rw [if_neg hi, hik]

lemma findFreeAux_free (snake : List Pos) (draws : ℕ → Pos) :
    ∀ (fuel i : ℕ) (p : Pos), findFreeAux snake draws fuel i = some p → p ∉ snake := by
  intro fuel
  induction fuel with
  | zero => intro i p h; simp [findFreeAux] at h
  | succ f ih =>
      intro i p h
      unfold findFreeAux at h
      by_cases hi : draws i ∈ snake
      · rw [if_pos hi] at h
        exact ih (i + 1) p h
      · rw [if_neg hi] at h
        injection h with h
        rw [← h]
        exact hi

/-- C9: `place_food` performs up to 100 random draws; if the first
free draw occurs at attempt `k < 100`, the food is placed there and
nothing else changes (in particular the game is not ended); if all
100 draws land on the snake the routine deterministically sets
`game_over` and leaves the food untouched — it is a total function,
so it neither raises nor loops forever. -/
theorem c9_place_food (s : EnvState) (draws : ℕ → Pos) :
    (∀ k : ℕ, k < 100 → (∀ j, j < k → draws j ∈ s.snake_pos) →
      draws k ∉ s.snake_pos →
      place_food draws s = { s with food_pos := draws k }) ∧
    ((∀ j, j < 100 → draws j ∈ s.snake_pos) →
      place_food draws s = { s with game_over := true }) := by
  constructor
  · intro k hk hocc hfree
    unfold place_food
    rw [findFreeAux_first s.snake_pos draws 100 0 k (Nat.zero_le k) (by omega)
      (fun j _ hj => hocc j hj) hfree]
  · intro hall
    unfold place_food
    rw [findFreeAux_none s.snake_pos draws 100 0 (fun j _ hj => hall j (by omega))]

/-- A concrete environment for the `place_food` witness. -/
def c9State : EnvState :=
  { width := 20, height := 20, snake_pos := [(3, 3)], snake_dir := (0, 1),
    food_pos := (9, 9), score := 0, game_over := false,
    steps_without_food := 0, total_steps := 0, paused := false }

/-- C9 witness: with the first draw on the snake and the second one
free, the food lands on the second draw; with every draw on the
snake, the game is ended. -/
theorem c9_witness :
    place_food (fun n => if n = 0 then (3, 3) else (7, 7)) c9State =
      { c9State with food_pos := (7, 7) } ∧
    place_food (fun _ => (3, 3)) c9State = { c9State with game_over := true } := by
  constructor
  · have h := (c9_place_food c9State (fun n => if n = 0 then (3, 3) else (7, 7))).1
      1 (by omega) (by intro j hj; interval_cases j; decide) (by decide)
    simpa using h
  · exact (c9_place_food c9State (fun _ => (3, 3))).2 (by intro j _; decide)

lemma step_eq_collision (s : EnvState) (a : ℕ) (draws : ℕ → Pos)
    (hp : s.paused = false) (hc : collides s a) :
    step a draws s = (stepTermState s a, -100, true) := by
  unfold step
  rw [if_neg (by simp [hp]), if_pos hc]

lemma step_eq_timeout (s : EnvState) (a : ℕ) (draws : ℕ → Pos)
    (hp : s.paused = false) (hc : ¬ collides s a) (ht : timedOut s) :
    step a draws s = (stepTermState s a, -50, true) := by
  unfold step
  rw [if_neg (by simp [hp]), if_neg hc, if_pos ht]

lemma step_eq_eat (s : EnvState) (a : ℕ) (draws : ℕ → Pos)
    (hp : s.paused = false) (hc : ¬ collides s a) (ht : ¬ timedOut s)
    (he : newHead s a = s.food_pos) :
    step a draws s = (place_food draws (stepEatState s a),
      stepReward s a + (100 + ((stepBody s a).length : ℝ) ^ (1.5 : ℝ)),
      (place_food draws (stepEatState s a)).game_over) := by
  unfold step
  rw [if_neg (by simp [hp]), if_neg hc, if_neg ht, if_pos he]

lemma step_eq_move (s : EnvState) (a : ℕ) (draws : ℕ → Pos)
    (hp : s.paused = false) (hc : ¬ collides s a) (ht : ¬ timedOut s)
    (he : newHead s a ≠ s.food_pos) :
    step a draws s = (stepMoveState s a, stepReward s a, s.game_over) := by
  unfold step
  rw [if_neg (by simp [hp]), if_neg hc, if_neg ht, if_neg he]

/-- C1: for a running (unpaused) state and any action in {0, 1, 2},
`step` updates the direction, forms the candidate head, and checks in
order: a candidate head out of bounds or inside the current body ends
the episode with reward exactly −100 (taking precedence over any
simultaneous timeout, since the collision branch carries no timeout
condition); otherwise a steps-without-food counter that has reached
`2 * width * height` ends it with reward exactly −50; in both
terminal cases the snake body is left unmodified. -/
theorem c1_terminal_checks (s : EnvState) (a : ℕ) (draws : ℕ → Pos)
    (hrun : s.paused = false) (_ha : a < 3) :
    (collides s a → step a draws s = (stepTermState s a, -100, true) ∧
      (step a draws s).1.snake_pos = s.snake_pos) ∧
    (¬ collides s a → timedOut s →
      step a draws s = (stepTermState s a, -50, true) ∧
      (step a draws s).1.snake_pos = s.snake_pos) := by
  constructor
  · intro hc
    rw [step_eq_collision s a draws hrun hc]
    exact ⟨rfl, rfl⟩
  · intro hc ht
    rw [step_eq_timeout s a draws hrun hc ht]
    exact ⟨rfl, rfl⟩

/-- The spec scenario for C1: head at the left boundary, moving left. -/
def c1State : EnvState :=
  { width := 20, height := 20, snake_pos := [(0, 5)], snake_dir := (-1, 0),
    food_pos := (10, 10), score := 0, game_over := false,
    steps_without_food := 0, total_steps := 0, paused := false }

/-- C1 witness: snake head at `(0,5)` moving left off-grid with action
Straight: collision, terminal, reward −100, body untouched. -/
theorem c1_witness :
    step 0 (fun _ => (0, 0)) c1State = (stepTermState c1State 0, -100, true) ∧
    (step 0 (fun _ => (0, 0)) c1State).1.snake_pos = c1State.snake_pos :=
  (c1_terminal_checks c1State 0 (fun _ => (0, 0)) rfl (by omega)).1 (by decide)

/-- C10: whenever the snake has length at least 2 and the candidate
head equals the current tail cell (the last body element), `step`
reports a self-collision and ends the episode with reward −100, body
unmodified — the membership test runs over the entire pre-move body,
before the tail is dropped, even though the tail would vacate that
cell on the same tick. -/
theorem c10_tail_collision (s : EnvState) (a : ℕ) (draws : ℕ → Pos)
    (hp : s.paused = false) (_hlen : 2 ≤ s.snake_pos.length)
    (htail : s.snake_pos.getLast? = some (newHead s a)) :
    step a draws s = (stepTermState s a, -100, true) ∧
    (step a draws s).1.snake_pos = s.snake_pos := by
  have hmem : newHead s a ∈ s.snake_pos := List.mem_of_getLast?_eq_some htail
  have hc : collides s a := Or.inr (Or.inr (Or.inr (Or.inr hmem)))
  rw [step_eq_collision s a draws hp hc]
  exact ⟨rfl, rfl⟩

/-- A length-2 snake about to turn left into its own tail cell. -/
def c10State : EnvState :=
  { width := 20, height := 20, snake_pos := [(5, 5), (5, 4)], snake_dir := (1, 0),
    food_pos := (10, 10), score := 0, game_over := false,
    steps_without_food := 0, total_steps := 0, paused := false }

/-- C10 witness: heading right at `(5,5)` with tail `(5,4)`, TurnLeft
(action 2) makes the candidate head the tail cell, and the step is a
terminal −100 self-collision. -/
theorem c10_witness :
    step 2 (fun _ => (0, 0)) c10State = (stepTermState c10State 2, -100, true) ∧
    (step 2 (fun _ => (0, 0)) c10State).1.snake_pos = c10State.snake_pos :=
  c10_tail_collision c10State 2 (fun _ => (0, 0)) rfl (by decide) (by decide)

lemma findFreeAux_isSome (snake : List Pos) (draws : ℕ → Pos) :
    ∀ (fuel i : ℕ), (∃ k, i ≤ k ∧ k < i + fuel ∧ draws k ∉ snake) →
      ∃ p, findFreeAux snake draws fuel i = some p := by
  intro fuel
  induction fuel with
  | zero => intro i ⟨k, h1, h2, _⟩; omega
  | succ f ih =>
      intro i ⟨k, h1, h2, hk⟩
      by_cases hi : draws i ∈ snake
      · have hik : i < k := by
          rcases Nat.lt_or_ge i k with h | h
          · exact h
          · have : i = k := by omega
            rw [this] at hi; exact absurd hi hk
        unfold findFreeAux
        rw [if_pos hi]
        exact ih (i + 1) ⟨k, by omega, by omega, hk⟩
      · exact ⟨draws i, by unfold findFreeAux; rw [if_neg hi]⟩

lemma place_food_invariant (draws : ℕ → Pos) (s : EnvState)
    (hdone : (place_food draws s).game_over = false) :
    (place_food draws s).food_pos ∉ (place_food draws s).snake_pos := by
  unfold place_food at hdone ⊢
  cases hfind : findFreeAux s.snake_pos draws 100 0 with
  | none => rw [hfind] at hdone; simp at hdone
  | some p => exact findFreeAux_free s.snake_pos draws 100 0 p hfind

/-- C3 (amended): the food is outside the snake body after every reset
in which `place_food` finds a free cell within the 100 draws, and the
invariant is preserved by every `step` returning `done = false`
(including eating steps, whose relocation must then have
succeeded); only a reset whose 100 placement draws all land on the
snake can leave the state, still running, with the stale food inside
the new snake. -/
theorem c3_food_invariant_amended (s : EnvState) :
    (∀ (start dir : Pos) (draws : ℕ → Pos),
      (∃ i, i < 100 ∧ draws i ≠ start) →
      (reset start dir draws s).food_pos ∉ (reset start dir draws s).snake_pos) ∧
    (∀ (a : ℕ) (draws : ℕ → Pos), s.food_pos ∉ s.snake_pos →
      (step a draws s).2.2 = false →
      (step a draws s).1.food_pos ∉ (step a draws s).1.snake_pos) := by
  constructor
  · rintro start dir draws ⟨i, hi, hne⟩
    obtain ⟨p, hp⟩ := findFreeAux_isSome [start] draws 100 0
      ⟨i, Nat.zero_le i, by omega, by simpa using hne⟩
    have hpfree : p ∉ [start] := findFreeAux_free [start] draws 100 0 p hp
    simp only [reset, place_food]
    rw [hp]
    simpa using hpfree
  · intro a draws hinv hdone
    by_cases hp : s.paused = true
    · have : step a draws s = (s, 0, false) := by unfold step; rw [if_pos hp]
      rw [this]
      exact hinv
    · have hp' : s.paused = false := by
        cases h : s.paused
        · rfl
        · exact absurd h hp
      by_cases hc : collides s a
      · rw [step_eq_collision s a draws hp' hc] at hdone
        simp at hdone
      · by_cases ht : timedOut s
        · rw [step_eq_timeout s a draws hp' hc ht] at hdone
          simp at hdone
        · by_cases he : newHead s a = s.food_pos
          · rw [step_eq_eat s a draws hp' hc ht he] at hdone ⊢
            exact place_food_invariant draws (stepEatState s a) hdone
          · rw [step_eq_move s a draws hp' hc ht he]
            show s.food_pos ∉ (stepBody s a).dropLast
            intro hmem
            have hmem2 : s.food_pos ∈ stepBody s a := List.dropLast_subset _ hmem
            rcases List.mem_cons.mp hmem2 with h | h
            · exact he h.symm
            · exact hinv h

/-- An environment whose previous episode left the food at `(5, 5)`. -/
def c3PrevState : EnvState :=
  { width := 20, height := 20, snake_pos := [(3, 3)], snake_dir := (0, 1),
    food_pos := (5, 5), score := 0, game_over := false,
    steps_without_food := 0, total_steps := 0, paused := false }

/-- C3 counterexample: a reachable reset violates the claimed
invariant.  The new snake starts at `(5, 5)` (a legal interior start)
while the stale food from the previous episode is also at `(5, 5)`;
all 100 placement draws land on the snake's only cell, so `place_food`
gives up leaving the food where it was — and `reset` then overwrites
`game_over` with `False`, so the state after this reset is running
with the food inside the snake body. -/
theorem c3_counterexample :
    (reset (5, 5) (0, 1) (fun _ => (5, 5)) c3PrevState).food_pos ∈
      (reset (5, 5) (0, 1) (fun _ => (5, 5)) c3PrevState).snake_pos ∧
    (reset (5, 5) (0, 1) (fun _ => (5, 5)) c3PrevState).game_over = false := by
  decide

/-- A running state with the food away from the snake, for the C3
witness. -/
def c3StepState : EnvState :=
  { width := 20, height := 20, snake_pos := [(5, 5)], snake_dir := (0, -1),
    food_pos := (10, 10), score := 0, game_over := false,
    steps_without_food := 0, total_steps := 0, paused := false }

/-- C3 witness: both parts of the amended theorem at concrete inputs —
a reset whose first draw is free, and an accepted straight move. -/
theorem c3_witness :
    (reset (5, 5) (0, 1) (fun _ => (0, 0)) c3PrevState).food_pos ∉
      (reset (5, 5) (0, 1) (fun _ => (0, 0)) c3PrevState).snake_pos ∧
    (step 0 (fun _ => (0, 0)) c3StepState).1.food_pos ∉
      (step 0 (fun _ => (0, 0)) c3StepState).1.snake_pos := by
  have hdone : (step 0 (fun _ => (0, 0)) c3StepState).2.2 = false := by
    unfold step
    rw [if_neg (by decide), if_neg (by decide), if_neg (by decide), if_neg (by decide)]
    rfl
  exact ⟨(c3_food_invariant_amended c3PrevState).1 (5, 5) (0, 1) (fun _ => (0, 0))
      ⟨0, by omega, by decide⟩,
    (c3_food_invariant_amended c3StepState).2 0 (fun _ => (0, 0)) (by decide) hdone⟩

lemma stepReward_eq (s : EnvState) (a : ℕ) :
    stepReward s a =
      1 + (if manhattan (newHead s a) s.food_pos <
              manhattan s.snake_pos.headI s.food_pos then (5 : ℝ)
           else if manhattan (newHead s a) s.food_pos >
              manhattan s.snake_pos.headI s.food_pos then -3 else 0)
        + (if onBoundary s (newHead s a) then (-2 : ℝ) else 0)
        + (if ((s.steps_without_food + 1 : ℕ) : ℚ) >
              ((s.width * s.height * 2 : ℕ) : ℚ) * (7 / 10) then (-5 : ℝ) else 0) := by
  unfold stepReward calculate_reward
  simp only [stepGrownState, stepBody, hungry, onBoundary, max_steps_without_food,
    List.headI_cons]
  split_ifs <;> ring

/-- C5: the reward of every accepted (non-collision, non-timeout,
unpaused) step is the unclamped sum of +1 survival, +5 / −3 for the
Manhattan distance to the food decreasing / increasing (0 when
unchanged), −2 for a new head on a boundary cell, −5 once the
incremented steps-without-food counter exceeds 70% of the timeout
threshold, plus — exactly when the new head is the food — a growth
bonus of `100 + length ** 1.5` for the grown snake length; the
components simply add, with no clamping. -/
theorem c5_reward_composition (s : EnvState) (a : ℕ) (draws : ℕ → Pos)
    (hp : s.paused = false) (hc : ¬ collides s a) (ht : ¬ timedOut s) :
    (step a draws s).2.1 =
      1 + (if manhattan (newHead s a) s.food_pos <
              manhattan s.snake_pos.headI s.food_pos then (5 : ℝ)
           else if manhattan (newHead s a) s.food_pos >
              manhattan s.snake_pos.headI s.food_pos then -3 else 0)
        + (if onBoundary s (newHead s a) then (-2 : ℝ) else 0)
        + (if ((s.steps_without_food + 1 : ℕ) : ℚ) >
              ((s.width * s.height * 2 : ℕ) : ℚ) * (7 / 10) then (-5 : ℝ) else 0)
        + (if newHead s a = s.food_pos then
              100 + ((s.snake_pos.length + 1 : ℕ) : ℝ) ^ (1.5 : ℝ) else 0) := by
  by_cases he : newHead s a = s.food_pos
  · rw [step_eq_eat s a draws hp hc ht he]
    show stepReward s a + (100 + ((stepBody s a).length : ℝ) ^ (1.5 : ℝ)) = _
    rw [stepReward_eq, if_pos he]
    have hlen : (stepBody s a).length = s.snake_pos.length + 1 := by
      simp [stepBody]
    rw [hlen]
  · rw [step_eq_move s a draws hp hc ht he]
    show stepReward s a = _
    rw [stepReward_eq, if_neg he]
    ring

/-- The spec scenario for C5: 20×20 grid, snake at `(5,5)` moving Up,
food at `(5,3)`. -/
def c5State : EnvState :=
  { width := 20, height := 20, snake_pos := [(5, 5)], snake_dir := (0, -1),
    food_pos := (5, 3), score := 0, game_over := false,
    steps_without_food := 0, total_steps := 0, paused := false }

/-- C5 witness: Straight from `(5,5)` moving Up with food at `(5,3)`:
the distance drops from 2 to 1, no other component fires, so the
reward is `1 + 5 = 6`. -/
theorem c5_witness : (step 0 (fun _ => (0, 0)) c5State).2.1 = 6 := by
  have h := c5_reward_composition c5State 0 (fun _ => (0, 0)) rfl
    (by decide) (by decide)
  rw [h, if_pos (by decide), if_neg (by decide),
    if_neg (show ¬ ((c5State.steps_without_food + 1 : ℕ) : ℚ) >
      ((c5State.width * c5State.height * 2 : ℕ) : ℚ) * (7 / 10) by norm_num [c5State]),
    if_neg (by decide)]
  norm_num

end SnakeRL
